import Mathlib

/-!
Verification of the Raiden matrix transport layer
(`raiden/network/transport/matrix/transport.py` and
`raiden/network/transport/matrix/utils.py`), via a shallow embedding of the
retry-queue state machine, the expiration generator, the inbound event
handlers, the global-room join procedure and the persisted room mapping.
-/

namespace RaidenMatrix

/- String constants used by the embedding (event types etc.). -/

def newlineStr : String := "\n"

def mRoomMember : String := "m.room.member"

def membershipInvite : String := "invite"

def membershipJoin : String := "join"

def mRoomJoinRules : String := "m.room.join_rules"

def joinRuleInvite : String := "invite"

def mRoomMessage : String := "m.room.message"

def mTextType : String := "m.text"

def hashStr : String := "#"

def colonStr : String := ":"

def deliveredTag : String := "Delivered:"

def pingTag : String := "Ping:"

def pongTag : String := "Pong:"

def retrieableTag : String := "Msg:"

/-! ## Time and `_RetryQueue._expiration_generator`

Time instants are rationals (a shallow model of the float clock `time.time`).
The Python generator

```
for timeout in timeout_generator:
    _next = now() + timeout
    yield True
    while now() < _next:
        yield False
```

is embedded as an explicit state machine: `idx` counts how many timeouts have
been consumed from `timeout_generator` and `deadline` is `_next` (it is `none`
before the first query).  One `next()` call at clock value `now` is one
`genStep`. -/

abbrev Time := ℚ

structure GenState where
  idx : Nat
  deadline : Option Time
deriving DecidableEq

/-- Fresh generator state, as produced by `_expiration_generator(...)` before
the first `next()` call. -/
def freshGen : GenState := ⟨0, none⟩

/-- One `next()` call on the expiration generator: the first query yields
`True` and sets `_next = now() + timeout`; later queries yield `False` while
`now() < _next` and otherwise fetch the next timeout, reset `_next` and yield
`True`. -/
def genStep (timeouts : Nat → Time) (now : Time) : GenState → Bool × GenState
  | ⟨k, none⟩ => (true, ⟨k + 1, some (now + timeouts k)⟩)
  | ⟨k, some d⟩ =>
    if now < d then (false, ⟨k, some d⟩)
    else (true, ⟨k + 1, some (now + timeouts k)⟩)

/-- State of the generator after the queries `qs 0, qs 1, ..., qs (n-1)`. -/
def genStates (timeouts qs : Nat → Time) : Nat → GenState
  | 0 => freshGen
  | n + 1 => (genStep timeouts (qs n) (genStates timeouts qs n)).2

/-- Value yielded by the `n`-th query (at clock value `qs n`). -/
def genOut (timeouts qs : Nat → Time) (n : Nat) : Bool :=
  (genStep timeouts (qs n) (genStates timeouts qs n)).1

/-! ## Messages, queue identifiers and the retry queue -/

/-- `CanonicalIdentifier`, collapsed to the channel identifier; the reserved
value `0` is `CANONICAL_IDENTIFIER_GLOBAL_QUEUE` (the global/unordered
queue). -/
abbrev CanonicalId := Nat

/-- Addresses are byte strings (20 bytes when valid). -/
abbrev Address := List Nat

structure QueueIdentifier where
  recipient : Address
  canonicalId : CanonicalId
deriving DecidableEq

/-- The message kinds that flow through `_RetryQueue`:
`Delivered`, `Ping` and `Pong` are the transport-internal one-shot kinds
(`isinstance(message, (Delivered, Ping, Pong))`), `retrieable` stands for the
`RetrieableMessage` subclasses carrying a `message_identifier`. -/
inductive Message where
  | delivered (deliveredMessageIdentifier : Nat)
  | ping (nonce : Nat)
  | pong (nonce : Nat)
  | retrieable (messageIdentifier : Nat)
deriving DecidableEq

/-- `isinstance(message, (Delivered, Ping, Pong))`. -/
def Message.isOneShot : Message → Bool
  | .delivered _ => true
  | .ping _ => true
  | .pong _ => true
  | .retrieable _ => false

/-- The `message_identifier` of a `RetrieableMessage`, `none` otherwise. -/
def Message.retrieableId : Message → Option Nat
  | .retrieable i => some i
  | _ => none

/-- `MessageSerializer.serialize` (an external collaborator of the transport):
any injective serialization works for the properties below; we use a concrete
tag-plus-number rendering. -/
def serializeMessage : Message → String
  | .delivered i => deliveredTag ++ toString i
  | .ping n => pingTag ++ toString n
  | .pong n => pongTag ++ toString n
  | .retrieable i => retrieableTag ++ toString i

/-- `_RetryQueue._MessageData`. -/
structure MessageData where
  queueIdentifier : QueueIdentifier
  message : Message
  text : String
  expirationGenerator : GenState
deriving DecidableEq

abbrev MessageQueue := List MessageData

/-- The `(queue_identifier, message)` pairs currently pending. -/
def pendingPairs (q : MessageQueue) : List (QueueIdentifier × Message) :=
  q.map fun d => (d.queueIdentifier, d.message)

/-- Duplicate check of `_RetryQueue.enqueue`:
`queue_identifier == data.queue_identifier and message == data.message`. -/
def alreadyQueued (q : MessageQueue) (qid : QueueIdentifier) (msg : Message) : Bool :=
  q.any fun d => d.queueIdentifier == qid && d.message == msg

/-- Number of pending entries for one `(queue id, message)` pair. -/
def pendingCount (q : MessageQueue) (qid : QueueIdentifier) (msg : Message) : Nat :=
  (q.filter fun d => d.queueIdentifier == qid && d.message == msg).length

/-- `_RetryQueue.enqueue`: reject duplicates, else append a `_MessageData`
with the serialized text and a fresh expiration generator. -/
def enqueue (q : MessageQueue) (qid : QueueIdentifier) (msg : Message) : MessageQueue :=
  if alreadyQueued q qid msg then q
  else q ++ [⟨qid, msg, serializeMessage msg, freshGen⟩]

/-! ## `_check_and_send` -/

def cidOf (d : MessageData) : CanonicalId := d.queueIdentifier.canonicalId

/-- Comparison used by `sorted(..., key=lambda d: d.queue_identifier.canonical_identifier)`. -/
def cidLE (a b : MessageData) : Prop := cidOf a ≤ cidOf b

instance : DecidableRel cidLE := fun _ _ => Nat.decLe _ _

instance : IsTotal MessageData cidLE := ⟨fun _ _ => Nat.le_total _ _⟩

instance : IsTrans MessageData cidLE := ⟨fun _ _ _ => Nat.le_trans⟩

/-- Python's `sorted` is a stable sort; insertion sort realizes the same
function. -/
def sortByCid (q : MessageQueue) : MessageQueue := q.insertionSort cidLE

/-- Whether `next(data.expiration_generator)` yields `True` at this cycle. -/
def dueNow (timeouts : Nat → Time) (now : Time) (d : MessageData) : Bool :=
  (genStep timeouts now d.expirationGenerator).1

/-- The generator advance caused by that same `next()` call. -/
def advanceGen (timeouts : Nat → Time) (now : Time) (d : MessageData) : MessageData :=
  { d with expirationGenerator := (genStep timeouts now d.expirationGenerator).2 }

/-- `message_is_in_queue`: some send event in the Raiden queue for this
queue identifier carries the message identifier of this (retrieable)
message. -/
def messageIsInQueue (view : QueueIdentifier → Option (List Nat)) (d : MessageData) : Bool :=
  match view d.queueIdentifier, d.message.retrieableId with
  | some ids, some i => ids.contains i
  | _, _ => false

/-- The pruning predicate of `_check_and_send`: one-shot messages, messages
whose Raiden queue is gone, and messages no longer in their Raiden queue are
removed. -/
def shouldRemove (view : QueueIdentifier → Option (List Nat)) (d : MessageData) : Bool :=
  if d.message.isOneShot then true
  else
    match view d.queueIdentifier with
    | none => true
    | some _ => !(messageIsInQueue view d)

/-- Per-cycle environment of `_check_and_send`: the cached reachability of the
recipient, the clock value and the current `_queueids_to_queues` view. -/
inductive AddressReachability where
  | unknown
  | reachable
  | unreachable
deriving DecidableEq

structure CycleInput where
  status : AddressReachability
  now : Time
  view : QueueIdentifier → Option (List Nat)

/-- `_RetryQueue._check_and_send` for a running transport: skip entirely when
the recipient is not reachable; otherwise step every pending message's
expiration generator once (in sorted order), collect the texts of the due
messages, prune, and submit the batch (if nonempty) to `_send_raw`.  The
first component is the batch handed to `"\n".join` (`none` when no send is
submitted), the second the new pending list. -/
def checkAndSend (timeouts : Nat → Time) (input : CycleInput) (q : MessageQueue) :
    Option (List String) × MessageQueue :=
  if input.status = .reachable then
    let ordered := sortByCid q
    let texts := (ordered.filter (dueNow timeouts input.now)).map fun d => d.text
    let advanced := q.map (advanceGen timeouts input.now)
    let kept := advanced.filter fun d => !(shouldRemove input.view d)
    (if texts.isEmpty then none else some texts, kept)
  else (none, q)

/-- The string actually submitted by `_send_raw` for a batch. -/
def submittedData (batch : Option (List String)) : Option String :=
  batch.map fun texts => String.intercalate newlineStr texts

/-! ## Runs of a retry queue -/

/-- A history event of one `_RetryQueue`: an `enqueue` call or one worker
cycle running `_check_and_send`. -/
inductive Event where
  | enq (qid : QueueIdentifier) (msg : Message)
  | cycle (status : AddressReachability) (now : Time)
      (view : QueueIdentifier → Option (List Nat))

structure RunState where
  queue : MessageQueue
  sent : List (List String)

def initialRunState : RunState := ⟨[], []⟩

def stepEvent (timeouts : Nat → Time) (s : RunState) : Event → RunState
  | .enq qid msg => { s with queue := enqueue s.queue qid msg }
  | .cycle st t view =>
    let r := checkAndSend timeouts ⟨st, t, view⟩ s.queue
    ⟨r.2, s.sent ++ r.1.toList⟩

def runFrom (timeouts : Nat → Time) (s : RunState) (events : List Event) : RunState :=
  events.foldl (stepEvent timeouts) s

def runEvents (timeouts : Nat → Time) (events : List Event) : RunState :=
  runFrom timeouts initialRunState events

/-- A worker cycle whose cached reachability is not `REACHABLE`. -/
def isIdleCycle : Event → Bool
  | .cycle .reachable _ _ => false
  | .cycle _ _ _ => true
  | .enq _ _ => false

/-- The run invariant behind the at-least-once property: every pending
message stores its own serialized text, and a message whose expiration
generator has ever been queried (its deadline is set) was part of some
already-submitted batch. -/
def QueueInv (s : RunState) : Prop :=
  ∀ d ∈ s.queue, d.text = serializeMessage d.message ∧
    (d.expirationGenerator.deadline = none ∨ ∃ b ∈ s.sent, d.text ∈ b)

/-! ## `MatrixTransport.send_async` and `_get_retrier` -/

/-- `eth_utils.is_binary_address`: a byte string of length 20. -/
def isBinaryAddress (a : Address) : Bool := a.length == 20

/-- A `_RetryQueue` as seen from the transport: its pending list and whether
its greenlet has been started. -/
structure Retrier where
  queue : MessageQueue
  started : Bool
deriving DecidableEq

/-- Association-list lookup (first match), used for the dict-valued transport
attributes. -/
def alistLookup {α β : Type} [DecidableEq α] : List (α × β) → α → Option β
  | [], _ => none
  | (k, v) :: rest, x => if k = x then some v else alistLookup rest x

/-- The mutable transport state that `send_async` touches:
`_address_to_retrier`. -/
structure TransportState where
  addressToRetrier : List (Address × Retrier)
deriving DecidableEq

/-- `MatrixTransport._get_retrier`: construct (and immediately start) a
`_RetryQueue` for the receiver when none exists. -/
def getRetrier (s : TransportState) (receiver : Address) : TransportState :=
  match alistLookup s.addressToRetrier receiver with
  | some _ => s
  | none => ⟨s.addressToRetrier ++ [(receiver, ⟨[], true⟩)]⟩

/-- `MatrixTransport._send_with_retry`: get-or-create the retrier and enqueue
on it. -/
def sendWithRetry (s : TransportState) (qid : QueueIdentifier) (msg : Message) :
    TransportState :=
  let s1 := getRetrier s qid.recipient
  ⟨s1.addressToRetrier.map fun p =>
    if p.1 = qid.recipient then (p.1, ⟨enqueue p.2.queue qid msg, p.2.started⟩) else p⟩

inductive SendError where
  | invalidAddress
  | invalidMessageType
deriving DecidableEq

/-- `MatrixTransport.send_async`: raise `ValueError` for a non-binary
recipient address or a transport-internal message kind, otherwise route to
the recipient's retry queue.  The first component is the raised error (if
any), the second the resulting transport state (unchanged in the error
case). -/
def sendAsync (s : TransportState) (qid : QueueIdentifier) (msg : Message) :
    Option SendError × TransportState :=
  if !(isBinaryAddress qid.recipient) then (some .invalidAddress, s)
  else if msg.isOneShot then (some .invalidMessageType, s)
  else (none, sendWithRetry s qid msg)

/-! ## `_handle_message` and `_is_room_global` -/

/-- `needle.isPrefix hay` on character lists (used for Python's substring
containment test `suffix in room_alias`). -/
def leadsWith : List Char → List Char → Bool
  | [], _ => true
  | _ :: _, [] => false
  | c :: cs, d :: ds => c == d && leadsWith cs ds

/-- Python's `needle in hay` on strings: `needle` occurs as a contiguous
substring of `hay`. -/
def strContains (hay needle : String) : Bool :=
  (List.range (hay.toList.length + 1)).any fun i =>
    leadsWith needle.toList (hay.toList.drop i)

/-- `MatrixTransport._is_room_global`: some alias of the room contains some
configured global-room suffix. -/
def isRoomGlobal (globalSuffixes : List String) (aliases : List String) : Bool :=
  aliases.any fun al => globalSuffixes.any fun suffix => strContains al suffix

/-- An `m.room.message` event as consumed by `_handle_message`. -/
structure MsgEvent where
  type : String
  msgtype : String
  sender : String
  body : String
deriving DecidableEq

/-- The room the event arrived in, as used by `_handle_message`. -/
structure RoomInfo where
  roomId : String
  inviteOnly : Bool
  aliases : List String
deriving DecidableEq

/-- `room.room_id not in room_ids and (self._private_rooms and not room.invite_only)`. -/
def softDropCond (roomIds : List String) (roomId : String)
    (privateRooms inviteOnly : Bool) : Bool :=
  !(roomIds.contains roomId) && (privateRooms && !inviteOnly)

/-- `not room_ids or room.room_id != room_ids[0]`. -/
def notFrontRoom (roomIds : List String) (roomId : String) : Bool :=
  match roomIds with
  | [] => true
  | r0 :: _ => roomId != r0

inductive MsgOutcome where
  /-- Non-message / non-text event, stopped transport, or our own message. -/
  | ignoredEarly
  /-- Invalid displayname signature of the sender. -/
  | ignoredInvalidSignature
  /-- Sender address not whitelisted. -/
  | ignoredNotWhitelisted
  /-- Soft-dropped by the private-room policy check. -/
  | ignoredInvalidRoom
  /-- Accepted; the flag records whether `_set_room_id_for_address` was
  called for this (new front) room. -/
  | accepted (newRoomPersisted : Bool)
deriving DecidableEq

inductive MsgFatal where
  /-- `RuntimeError(f"Received message in global room {room.aliases}.")`. -/
  | globalRoomViolation
deriving DecidableEq

/-- `MatrixTransport._handle_message` up to (and including) the room checks;
the presence refresh, body parsing and per-message dispatch that follow do
not influence which of these outcomes is reached. -/
def handleMessage (stopped : Bool) (ownUserId : String)
    (validateSig : String → Option Address) (isKnown : Address → Bool)
    (privateRooms : Bool) (globalSuffixes : List String)
    (roomIdsFor : Address → List String)
    (room : RoomInfo) (event : MsgEvent) : Except MsgFatal MsgOutcome :=
  if event.type ≠ mRoomMessage ∨ event.msgtype ≠ mTextType ∨ stopped then
    .ok .ignoredEarly
  else if event.sender = ownUserId then .ok .ignoredEarly
  else
    match validateSig event.sender with
    | none => .ok .ignoredInvalidSignature
    | some peer =>
      if !(isKnown peer) then .ok .ignoredNotWhitelisted
      else
        let roomIds := roomIdsFor peer
        if softDropCond roomIds room.roomId privateRooms room.inviteOnly then
          .ok .ignoredInvalidRoom
        else if notFrontRoom roomIds room.roomId then
          if isRoomGlobal globalSuffixes room.aliases then
            .error .globalRoomViolation
          else .ok (.accepted true)
        else .ok (.accepted false)

/-! ## `_handle_invite` -/

/-- One entry of `state["events"]` as inspected by `_handle_invite`. -/
structure MemberEvent where
  type : String
  /-- `event["content"].get("membership")`. -/
  membership : Option String
  stateKey : String
  sender : String
  /-- `event["content"].get("join_rule")` for `m.room.join_rules` events. -/
  joinRule : Option String
deriving DecidableEq

inductive InviteOutcome where
  | ignoredStopped
  | queuedWhileStarting
  | ignoredInvalidSignature
  | ignoredNotWhitelisted
  | noSenderJoinEvent
  /-- Joined the room and persisted the mapping for the inviter. -/
  | joined (peer : Address) (roomId : String) (privateRoom : Bool)
deriving DecidableEq

inductive InviteError where
  /-- `IndexError` from `invite_events[0]` on an empty list. -/
  | indexError
  /-- `MatrixRequestError` re-raised after the bounded join retries. -/
  | matrixError (code : Nat)
deriving DecidableEq

/-- `JOIN_RETRIES` from `utils.py`. -/
def joinRetries : Nat := 5

/-- The bounded join-retry loop of `_handle_invite`: up to `fuel` attempts,
re-raising the last `MatrixRequestError` when all fail. -/
def inviteJoinLoop (joinAttempt : Nat → Except Nat String) : Nat → Nat → Except Nat String
  | _, 0 => .error 0
  | i, fuel + 1 =>
    match joinAttempt i with
    | .ok rid => .ok rid
    | .error c => if fuel = 0 then .error c else inviteJoinLoop joinAttempt (i + 1) fuel

/-- `MatrixTransport._handle_invite`.  Note that the source evaluates
`invite_events[0]` *before* the `if not invite_events` guard, so an invite
state carrying no invite-membership event for this node raises `IndexError`
(the guard below it is dead code). -/
def handleInvite (stopped starting : Bool) (ownUserId : String)
    (validateSig : String → Option Address) (isKnown : Address → Bool)
    (joinAttempt : Nat → Except Nat String)
    (roomId : String) (events : List MemberEvent) : Except InviteError InviteOutcome :=
  if stopped then .ok .ignoredStopped
  else if starting then .ok .queuedWhileStarting
  else
    let inviteEvents := events.filter fun e =>
      e.type == mRoomMember && e.membership == some membershipInvite
        && e.stateKey == ownUserId
    match inviteEvents with
    | [] => .error .indexError
    | inviteEvent :: _ =>
      let sender := inviteEvent.sender
      match validateSig sender with
      | none => .ok .ignoredInvalidSignature
      | some peer =>
        if !(isKnown peer) then .ok .ignoredNotWhitelisted
        else
          let senderJoinEvents := events.filter fun e =>
            e.type == mRoomMember && e.membership == some membershipJoin
              && e.stateKey == sender
          match senderJoinEvents with
          | [] => .ok .noSenderJoinEvent
          | _ :: _ =>
            let joinRulesEvents := events.filter fun e => e.type == mRoomJoinRules
            let privateRoom :=
              match joinRulesEvents with
              | [] => false
              | e :: _ => e.joinRule == some joinRuleInvite
            match inviteJoinLoop joinAttempt 0 joinRetries with
            | .ok _ => .ok (.joined peer roomId privateRoom)
            | .error c => .error (.matrixError c)

/-! ## `join_global_room` (`utils.py`) -/

structure MRoom where
  roomId : String
  aliases : List String
deriving DecidableEq

inductive JGError where
  /-- a `MatrixRequestError` propagated out of the function. -/
  | matrixError (code : Nat)
  /-- `TransportError('Could neither join nor create a global room')`. -/
  | transportError
deriving DecidableEq

def roomAliasFull (name server : String) : String :=
  hashStr ++ name ++ colonStr ++ server

/-- `ex.code in (403, 404, 500)` in the server-join loop. -/
def softJoinCode (c : Nat) : Bool := c == 403 || c == 404 || c == 500

/-- `ex.code in (400, 409)` in the create loop. -/
def softCreateCode (c : Nat) : Bool := c == 400 || c == 409

/-- `ex.code in (404, 403)` on the own-alias join inside the create loop. -/
def softOwnJoinCode (c : Nat) : Bool := c == 404 || c == 403

/-- `OrderedDict.fromkeys`: deduplicate, keeping the first occurrence. -/
def dedupKeepFirst : List String → List String
  | [] => []
  | s :: rest => s :: dedupKeepFirst (rest.filter fun t => t ≠ s)
termination_by l => l.length
decreasing_by
  simp only [List.length_cons]
  exact Nat.lt_succ_of_le (List.length_filter_le _ _)

/-- Joining a found global room that lacks our own server's alias adds it. -/
def aliasRoom (ownAlias : String) (room : MRoom) : MRoom :=
  if ownAlias ∈ room.aliases then room else ⟨room.roomId, room.aliases ++ [ownAlias]⟩

/-- The `for server in servers` join loop: first success or hard failure
decides the result; soft failures (403/404/500) fall through to the next
server; `none` means every server soft-failed. -/
def joinLoopRes (join : String → Except Nat MRoom) (name ownAlias : String) :
    List String → Option (Except Nat MRoom)
  | [] => none
  | server :: rest =>
    match join (roomAliasFull name server) with
    | .ok room => some (.ok (aliasRoom ownAlias room))
    | .error c =>
      if softJoinCode c then joinLoopRes join name ownAlias rest
      else some (.error c)

/-- The aliases on which `client.join_room` is attempted by that loop, in
order. -/
def joinLoopTrace (join : String → Except Nat MRoom) (name : String) :
    List String → List String
  | [] => []
  | server :: rest =>
    match join (roomAliasFull name server) with
    | .ok _ => [roomAliasFull name server]
    | .error c =>
      if softJoinCode c then roomAliasFull name server :: joinLoopTrace join name rest
      else [roomAliasFull name server]

/-- The bounded create-or-join-own-alias loop entered when no server had the
room: codes outside (400, 409) on create, or outside (404, 403) on the
own-alias join, propagate; exhausting `JOIN_RETRIES` raises
`TransportError`. -/
def createLoop (create joinOwn : Nat → Except Nat MRoom) : Nat → Nat → Except JGError MRoom
  | _, 0 => .error .transportError
  | i, fuel + 1 =>
    match create i with
    | .ok room => .ok room
    | .error c =>
      if softCreateCode c then
        match joinOwn i with
        | .ok room => .ok room
        | .error d =>
          if softOwnJoinCode d then createLoop create joinOwn (i + 1) fuel
          else .error (.matrixError d)
      else .error (.matrixError c)

/-- `join_global_room(client, name, servers)`: `own` is the netloc of the
client's own homeserver, `fallbacks` the configured available servers
(netlocs); `join`, `create` and `joinOwn` are the client's room primitives
(the latter two indexed by retry attempt). -/
def joinGlobalRoom (join : String → Except Nat MRoom) (create joinOwn : Nat → Except Nat MRoom)
    (name own : String) (fallbacks : List String) : Except JGError MRoom :=
  let servers := dedupKeepFirst (own :: fallbacks)
  let ownAlias := roomAliasFull name own
  match joinLoopRes join name ownAlias servers with
  | some (.ok room) => .ok room
  | some (.error c) => .error (.matrixError c)
  | none => createLoop create joinOwn 0 joinRetries

/-- The join attempts performed on the per-server loop of
`join_global_room`, in order. -/
def joinGlobalRoomAttempts (join : String → Except Nat MRoom)
    (name own : String) (fallbacks : List String) : List String :=
  joinLoopTrace join name (dedupKeepFirst (own :: fallbacks))

/-! ## `_set_room_id_for_address` / `_get_room_ids_for_address` -/

abbrev RoomID := String

abbrev AddressHex := String

/-- The client state touched by the room-mapping helpers: the known rooms
(`client.rooms`, with their `invite_only` flag) and the account-data mapping
stored under `"network.raiden.rooms"`. -/
structure ClientState where
  rooms : List (RoomID × Bool)
  accountData : List (AddressHex × List RoomID)
deriving DecidableEq

/-- `MatrixTransport._get_room_ids_for_address`: the persisted list filtered
to existing rooms, and additionally to invite-only rooms when privacy
filtering applies (`filterPrivate`, defaulting to the `private_rooms`
configuration). -/
def getRoomIdsForAddress (c : ClientState) (privateRoomsCfg : Bool)
    (addr : AddressHex) (filterPrivate : Option Bool) : List RoomID :=
  let roomIds := (alistLookup c.accountData addr).getD []
  let fp := filterPrivate.getD privateRoomsCfg
  if fp then
    roomIds.filter fun r => (alistLookup c.rooms r).getD false
  else
    roomIds.filter fun r => (alistLookup c.rooms r).isSome

/-- Removal of a key from the persisted mapping (`dict.pop`). -/
def adErase (m : List (AddressHex × List RoomID)) (a : AddressHex) :
    List (AddressHex × List RoomID) :=
  m.filter fun p => p.1 ≠ a

/-- Assignment of a key in the persisted mapping. -/
def adInsert (m : List (AddressHex × List RoomID)) (a : AddressHex)
    (v : List RoomID) : List (AddressHex × List RoomID) :=
  (a, v) :: adErase m a

/-- `MatrixTransport._set_room_id_for_address`; the caller guarantees
`not room_id or room_id in self._client.rooms` (the function's assert).
A falsy `room_id` (modelled as `none`) clears the address's entry; otherwise
the room id is pushed to the front of the filtered persisted list.  The
account data is only rewritten when the list changed. -/
def setRoomIdForAddress (c : ClientState) (privateRoomsCfg : Bool)
    (addr : AddressHex) (roomId : Option RoomID) : ClientState :=
  let roomIds := getRoomIdsForAddress c privateRoomsCfg addr (some false)
  let m := c.accountData
  match roomId with
  | none =>
    if (alistLookup m addr).isSome then ⟨c.rooms, adErase m addr⟩ else c
  | some rid =>
    let newIds := rid :: roomIds.filter fun r => r ≠ rid
    if alistLookup m addr = some newIds then c
    else ⟨c.rooms, adInsert m addr newIds⟩

/-! ## Helper lemmas -/

theorem alreadyQueued_true_iff (q : MessageQueue) (qid : QueueIdentifier) (msg : Message) :
    alreadyQueued q qid msg = true ↔ 0 < pendingCount q qid msg := by
  simp only [alreadyQueued, pendingCount, List.any_eq_true, List.length_pos,
    Bool.and_eq_true, beq_iff_eq]
  constructor
  · rintro ⟨d, hd, h1, h2⟩ hnil
    have := List.filter_eq_nil_iff.mp hnil d hd
    simp [h1, h2] at this
  · intro hne
    rcases List.exists_mem_of_ne_nil _ hne with ⟨d, hd⟩
    rcases List.mem_filter.mp hd with ⟨hdq, hp⟩
    simp only [Bool.and_eq_true, beq_iff_eq] at hp
    exact ⟨d, hdq, hp⟩

theorem pendingCount_append_match (q : MessageQueue) (qid : QueueIdentifier) (msg : Message)
    (t : String) (g : GenState) :
    pendingCount (q ++ [⟨qid, msg, t, g⟩]) qid msg = pendingCount q qid msg + 1 := by
  simp [pendingCount, List.filter_append]

/-- C3 claim (sources: `_RetryQueue.enqueue`). -/
theorem enqueue_pair_mem (q : MessageQueue) (qid : QueueIdentifier) (msg : Message) :
    (qid, msg) ∈ pendingPairs (enqueue q qid msg) := by
  unfold enqueue
  by_cases h : alreadyQueued q qid msg
  · simp only [h, if_true]
    rcases (alreadyQueued_true_iff q qid msg).mp h with hc
    simp only [pendingCount] at hc
    rw [List.length_pos] at hc
    rcases List.exists_mem_of_ne_nil _ hc with ⟨d, hd⟩
    rcases List.mem_filter.mp hd with ⟨hdq, hp⟩
    simp only [Bool.and_eq_true, beq_iff_eq] at hp
    simp only [pendingPairs, List.mem_map]
    exact ⟨d, hdq, by simp [hp.1, hp.2]⟩
  · simp only [h, if_false, Bool.false_eq_true, pendingPairs, List.mem_map]
    exact ⟨⟨qid, msg, serializeMessage msg, freshGen⟩, by simp, rfl⟩

/-! ## C3: idempotent enqueue -/

/-- C3: for every retry-queue state in which the `(queue id, message)` pair is
pending at most once (every state reachable by `enqueue` calls is such),
enqueuing the identical pair twice leaves exactly one pending entry for that
pair: the duplicate call returns without appending and leaves the queue
unchanged. -/
theorem enqueue_idempotent (q : MessageQueue) (qid : QueueIdentifier) (msg : Message)
    (h : pendingCount q qid msg ≤ 1) :
    enqueue (enqueue q qid msg) qid msg = enqueue q qid msg ∧
      pendingCount (enqueue q qid msg) qid msg = 1 := by
  have hdup : alreadyQueued (enqueue q qid msg) qid msg = true := by
    rw [alreadyQueued_true_iff]
    unfold enqueue
    by_cases hq : alreadyQueued q qid msg
    · simpa [hq] using (alreadyQueued_true_iff q qid msg).mp hq
    · simp [hq, pendingCount_append_match]
  refine ⟨by rw [enqueue, hdup]; simp, ?_⟩
  unfold enqueue
  by_cases hq : alreadyQueued q qid msg
  · have h1 := (alreadyQueued_true_iff q qid msg).mp hq
    simp only [hq, if_true]
    omega
  · have h0 : pendingCount q qid msg = 0 := by
      by_contra hne
      exact hq ((alreadyQueued_true_iff q qid msg).mpr (Nat.pos_of_ne_zero hne))
    simp [hq, pendingCount_append_match, h0]

/-- Witness for C3 at a concrete queue. -/
theorem enqueue_idempotent_witness :
    pendingCount [] ⟨[1], 3⟩ (.retrieable 7) ≤ 1 ∧
      (enqueue (enqueue [] ⟨[1], 3⟩ (.retrieable 7)) ⟨[1], 3⟩ (.retrieable 7) =
          enqueue [] ⟨[1], 3⟩ (.retrieable 7) ∧
        pendingCount (enqueue [] ⟨[1], 3⟩ (.retrieable 7)) ⟨[1], 3⟩ (.retrieable 7) = 1) :=
  ⟨by decide, enqueue_idempotent [] ⟨[1], 3⟩ (.retrieable 7) (by decide)⟩

/-! ## C4: no send while unreachable -/

theorem checkAndSend_not_reachable (timeouts : Nat → Time) (st : AddressReachability)
    (t : Time) (view : QueueIdentifier → Option (List Nat)) (q : MessageQueue)
    (h : st ≠ .reachable) :
    checkAndSend timeouts ⟨st, t, view⟩ q = (none, q) := by
  simp [checkAndSend, h]

theorem isIdleCycle_cycle {st : AddressReachability} {t : Time}
    {view : QueueIdentifier → Option (List Nat)}
    (h : isIdleCycle (.cycle st t view) = true) : st ≠ .reachable := by
  cases st <;> simp_all [isIdleCycle]

theorem stepEvent_idle (timeouts : Nat → Time) (s : RunState) (e : Event)
    (he : isIdleCycle e = true) : stepEvent timeouts s e = s := by
  cases e with
  | enq qid msg => simp [isIdleCycle] at he
  | cycle st t view =>
    have hst := isIdleCycle_cycle he
    cases s with
    | mk queue sent =>
      simp [stepEvent, checkAndSend_not_reachable timeouts st t view queue hst]

theorem runFrom_idle (timeouts : Nat → Time) :
    ∀ (events : List Event) (s : RunState),
      (∀ e ∈ events, isIdleCycle e = true) → runFrom timeouts s events = s := by
  intro events
  induction events with
  | nil => intro s _; rfl
  | cons e es ih =>
    intro s h
    have he : isIdleCycle e = true := h e (List.mem_cons_self e es)
    have hes : ∀ x ∈ es, isIdleCycle x = true := fun x hx => h x (List.mem_cons_of_mem e hx)
    show runFrom timeouts (stepEvent timeouts s e) es = s
    rw [stepEvent_idle timeouts s e he]
    exact ih s hes

/-- C4: while the recipient is not `REACHABLE`, `_check_and_send` returns
without submitting any send and without touching the pending list (no
expiration generator is consumed, nothing is pruned); any number of such
cycles leaves the run state — pending list and list of submitted sends —
unchanged. -/
theorem unreachable_cycles_no_send (timeouts : Nat → Time) (s : RunState)
    (events : List Event) (h : ∀ e ∈ events, isIdleCycle e = true) :
    runFrom timeouts s events = s ∧
      ∀ (st : AddressReachability) (t : Time) (view : QueueIdentifier → Option (List Nat))
        (q : MessageQueue), st ≠ .reachable →
          checkAndSend timeouts ⟨st, t, view⟩ q = (none, q) :=
  ⟨runFrom_idle timeouts events s h,
    fun st t view q hst => checkAndSend_not_reachable timeouts st t view q hst⟩

/-- Witness for C4: two unreachable cycles leave a nonempty queue untouched. -/
theorem unreachable_cycles_no_send_witness :
    (∀ e ∈ ([.cycle .unreachable 0 (fun _ => none),
        .cycle .unknown 1 (fun _ => none)] : List Event), isIdleCycle e = true) ∧
      runFrom (fun _ => 1) ⟨enqueue [] ⟨[2], 5⟩ (.retrieable 9), []⟩
          [.cycle .unreachable 0 (fun _ => none), .cycle .unknown 1 (fun _ => none)] =
        ⟨enqueue [] ⟨[2], 5⟩ (.retrieable 9), []⟩ :=
  ⟨by decide,
    (unreachable_cycles_no_send (fun _ => 1) ⟨enqueue [] ⟨[2], 5⟩ (.retrieable 9), []⟩
      [.cycle .unreachable 0 (fun _ => none), .cycle .unknown 1 (fun _ => none)]
      (by decide)).1⟩

/-! ## C2: batch composition and ordering -/

theorem filter_cid_orderedInsert (c : CanonicalId) (x : MessageData) (L : List MessageData) :
    (List.orderedInsert cidLE x L).filter (fun d => cidOf d == c) =
      if cidOf x == c then x :: L.filter (fun d => cidOf d == c)
      else L.filter (fun d => cidOf d == c) := by
  induction L with
  | nil =>
    by_cases hx : (cidOf x == c) = true <;> simp [List.orderedInsert, List.filter, hx]
  | cons y ys ih =>
    simp only [List.orderedInsert]
    by_cases hxy : cidLE x y
    · simp only [if_pos hxy]
      by_cases hx : (cidOf x == c) = true <;> simp [List.filter, hx]
    · simp only [if_neg hxy]
      have hlt : cidOf y < cidOf x := Nat.lt_of_not_le hxy
      by_cases hx : (cidOf x == c) = true
      · have hxc : cidOf x = c := by simpa using hx
        have hyne : cidOf y ≠ c := by
          intro hh
          rw [hh, hxc] at hlt
          exact Nat.lt_irrefl c hlt
        have hyc : (cidOf y == c) = false := by simpa using hyne
        simp [List.filter, hyc, ih, hx]
      · by_cases hy : (cidOf y == c) = true <;> simp [List.filter, hy, ih, hx]

/-- Stability of the `_check_and_send` sort: for every canonical identifier,
the messages of that queue appear in the sorted list in their original
enqueue order. -/
theorem filter_cid_sortByCid (c : CanonicalId) (q : MessageQueue) :
    (sortByCid q).filter (fun d => cidOf d == c) = q.filter (fun d => cidOf d == c) := by
  induction q with
  | nil => rfl
  | cons x xs ih =>
    have hins : sortByCid (x :: xs) = List.orderedInsert cidLE x (sortByCid xs) := rfl
    rw [hins, filter_cid_orderedInsert]
    by_cases hx : (cidOf x == c) = true <;> simp [List.filter, hx, ih]

/-- C2: in a reachable cycle, `_check_and_send` composes the batch from the
due messages in ascending canonical-identifier order (the global queue, id
`0`, first), preserving the enqueue order of each queue; the submitted text
is the newline-concatenation of the due messages' serialized texts in that
order. -/
theorem checkAndSend_batch_order (timeouts : Nat → Time) (t : Time)
    (view : QueueIdentifier → Option (List Nat)) (q : MessageQueue) :
    (checkAndSend timeouts ⟨.reachable, t, view⟩ q).1 =
        (if ((sortByCid q).filter (dueNow timeouts t)).isEmpty then none
         else some (((sortByCid q).filter (dueNow timeouts t)).map fun d => d.text)) ∧
      submittedData (checkAndSend timeouts ⟨.reachable, t, view⟩ q).1 =
        (if ((sortByCid q).filter (dueNow timeouts t)).isEmpty then none
         else some (String.intercalate newlineStr
             (((sortByCid q).filter (dueNow timeouts t)).map fun d => d.text))) ∧
      List.Pairwise cidLE (sortByCid q) ∧
      ∀ c : CanonicalId,
        (sortByCid q).filter (fun d => cidOf d == c) = q.filter (fun d => cidOf d == c) := by
  have h0 : checkAndSend timeouts ⟨.reachable, t, view⟩ q =
      (if (((sortByCid q).filter (dueNow timeouts t)).map fun d => d.text).isEmpty then none
       else some (((sortByCid q).filter (dueNow timeouts t)).map fun d => d.text),
       (q.map (advanceGen timeouts t)).filter fun d => !(shouldRemove view d)) := rfl
  have h1 : (checkAndSend timeouts ⟨.reachable, t, view⟩ q).1 =
      (if ((sortByCid q).filter (dueNow timeouts t)).isEmpty then none
       else some (((sortByCid q).filter (dueNow timeouts t)).map fun d => d.text)) := by
    rw [h0]
    by_cases he : ((sortByCid q).filter (dueNow timeouts t)) = []
    · simp [he]
    · have hne : (((sortByCid q).filter (dueNow timeouts t)).map fun d => d.text) ≠ [] := by
        simpa using he
      simp [he, hne]
  refine ⟨h1, ?_, List.sorted_insertionSort cidLE q, fun c => filter_cid_sortByCid c q⟩
  rw [h1]
  by_cases he : ((sortByCid q).filter (dueNow timeouts t)).isEmpty <;>
    simp [he, submittedData]

/-! ## C5: the expiration generator schedule -/

theorem genStates_succ_of_out_true (timeouts qs : Nat → Time) (n : Nat)
    (h : genOut timeouts qs n = true) :
    genStates timeouts qs (n + 1) =
      ⟨(genStates timeouts qs n).idx + 1,
        some (qs n + timeouts (genStates timeouts qs n).idx)⟩ := by
  have hdef : genStates timeouts qs (n + 1) =
      (genStep timeouts (qs n) (genStates timeouts qs n)).2 := rfl
  rcases hs : genStates timeouts qs n with ⟨k, dl⟩
  rw [hs] at hdef
  cases dl with
  | none => rw [hdef]; rfl
  | some d =>
    unfold genOut at h
    rw [hs] at h
    dsimp only [genStep] at h hdef
    by_cases hlt : qs n < d
    · rw [if_pos hlt] at h
      simp at h
    · rw [if_neg hlt] at hdef
      rw [hdef]

theorem genStates_persist (timeouts qs : Nat → Time) (n k1 : Nat) (dl : Time)
    (hstate : genStates timeouts qs (n + 1) = ⟨k1, some dl⟩) :
    ∀ m, n + 1 ≤ m → (∀ j, n + 1 ≤ j → j < m → qs j < dl) →
      genStates timeouts qs m = ⟨k1, some dl⟩ := by
  intro m
  induction m with
  | zero => intro h _; omega
  | succ m ih =>
    intro hm hq
    rcases Nat.lt_or_ge n m with hnm | hmn
    · have hsm : genStates timeouts qs m = ⟨k1, some dl⟩ :=
        ih (by omega) (fun j hj1 hj2 => hq j hj1 (by omega))
      have hqm : qs m < dl := hq m (by omega) (by omega)
      have hdef : genStates timeouts qs (m + 1) =
          (genStep timeouts (qs m) (genStates timeouts qs m)).2 := rfl
      rw [hsm] at hdef
      dsimp only [genStep] at hdef
      rw [if_pos hqm] at hdef
      exact hdef
    · have : m = n := by omega
      subst this
      exact hstate

theorem genOut_of_state_lt (timeouts qs : Nat → Time) (m k1 : Nat) (dl : Time)
    (hs : genStates timeouts qs m = ⟨k1, some dl⟩) (hlt : qs m < dl) :
    genOut timeouts qs m = false := by
  unfold genOut
  rw [hs]
  dsimp only [genStep]
  rw [if_pos hlt]

theorem genOut_of_state_ge (timeouts qs : Nat → Time) (m k1 : Nat) (dl : Time)
    (hs : genStates timeouts qs m = ⟨k1, some dl⟩) (hge : dl ≤ qs m) :
    genOut timeouts qs m = true := by
  unfold genOut
  rw [hs]
  dsimp only [genStep]
  rw [if_neg (not_lt.mpr hge)]

/-- C5: under a monotone clock `qs`, the expiration generator yields `True`
on its first query; after a `True` at query `n` (at time `qs n`, fetching
the current timeout `ti`), every query strictly before `qs n + ti` yields
`False`, and the first query at or after `qs n + ti` yields `True` again —
at most one `True` per elapsed backoff interval. -/
theorem expirationGenerator_schedule (timeouts qs : Nat → Time)
    (hmono : ∀ m n : Nat, m ≤ n → qs m ≤ qs n) :
    genOut timeouts qs 0 = true ∧
      ∀ n, genOut timeouts qs n = true →
        (∀ m, n < m → qs m < qs n + timeouts (genStates timeouts qs n).idx →
          genOut timeouts qs m = false) ∧
        (∀ m, n < m → qs n + timeouts (genStates timeouts qs n).idx ≤ qs m →
          (∀ j, n < j → j < m → qs j < qs n + timeouts (genStates timeouts qs n).idx) →
          genOut timeouts qs m = true) := by
  refine ⟨rfl, fun n ht => ?_⟩
  have hstate := genStates_succ_of_out_true timeouts qs n ht
  set k := (genStates timeouts qs n).idx with hk
  set dl := qs n + timeouts k with hdl
  constructor
  · intro m hm hqm
    have hall : ∀ j, n + 1 ≤ j → j < m → qs j < dl := fun j hj1 hj2 =>
      lt_of_le_of_lt (hmono j m (by omega)) hqm
    have hsm := genStates_persist timeouts qs n (k + 1) dl hstate m (by omega) hall
    exact genOut_of_state_lt timeouts qs m (k + 1) dl hsm hqm
  · intro m hm hge hbetween
    have hall : ∀ j, n + 1 ≤ j → j < m → qs j < dl := fun j hj1 hj2 =>
      hbetween j (by omega) hj2
    have hsm := genStates_persist timeouts qs n (k + 1) dl hstate m (by omega) hall
    exact genOut_of_state_ge timeouts qs m (k + 1) dl hsm hge

/-- Witness for C5 with timeouts constantly `2` and the clock `qs n = n`:
the first query yields `True`, the query at time `1` (inside the interval)
yields `False`, and the one at time `2` yields `True` again. -/
theorem expirationGenerator_schedule_witness :
    (∀ m n : Nat, m ≤ n → ((m : ℚ)) ≤ ((n : ℚ))) ∧
      genOut (fun _ => 2) (fun n => (n : ℚ)) 0 = true ∧
      genOut (fun _ => 2) (fun n => (n : ℚ)) 1 = false ∧
      genOut (fun _ => 2) (fun n => (n : ℚ)) 2 = true := by
  have hmono : ∀ m n : Nat, m ≤ n → ((m : ℚ)) ≤ ((n : ℚ)) := fun m n h => by
    exact_mod_cast h
  have hmain := expirationGenerator_schedule (fun _ => 2) (fun n => (n : ℚ)) hmono
  have h0 : genOut (fun _ => 2) (fun n => (n : ℚ)) 0 = true := hmain.1
  have hidx : (genStates (fun _ => 2) (fun n => (n : ℚ)) 0).idx = 0 := rfl
  have h1 : genOut (fun _ => 2) (fun n => (n : ℚ)) 1 = false := by
    refine (hmain.2 0 h0).1 1 (by omega) ?_
    rw [hidx]
    norm_num
  have h2 : genOut (fun _ => 2) (fun n => (n : ℚ)) 2 = true := by
    refine (hmain.2 0 h0).2 2 (by omega) ?_ ?_
    · rw [hidx]; norm_num
    · intro j hj1 hj2
      have : j = 1 := by omega
      subst this
      rw [hidx]; norm_num
  exact ⟨hmono, h0, h1, h2⟩

/-! ## C1: no message is pruned without having been handed to a send -/

theorem checkAndSend_reachable_eq (timeouts : Nat → Time) (t : Time)
    (view : QueueIdentifier → Option (List Nat)) (q : MessageQueue) :
    checkAndSend timeouts ⟨.reachable, t, view⟩ q =
      (if (((sortByCid q).filter (dueNow timeouts t)).map fun d => d.text).isEmpty then none
       else some (((sortByCid q).filter (dueNow timeouts t)).map fun d => d.text),
       (q.map (advanceGen timeouts t)).filter fun d => !(shouldRemove view d)) := rfl

theorem dueNow_of_fresh (timeouts : Nat → Time) (t : Time) (d : MessageData)
    (h : d.expirationGenerator.deadline = none) : dueNow timeouts t d = true := by
  unfold dueNow
  rcases hg : d.expirationGenerator with ⟨k, dl⟩
  rw [hg] at h
  simp only at h
  subst h
  rfl

theorem cycle_sends_pending (timeouts : Nat → Time) (s : RunState) (t : Time)
    (view : QueueIdentifier → Option (List Nat)) (hinv : QueueInv s)
    (d : MessageData) (hd : d ∈ s.queue) :
    ∃ b ∈ (stepEvent timeouts s (.cycle .reachable t view)).sent, d.text ∈ b := by
  have hstep : (stepEvent timeouts s (.cycle .reachable t view)).sent =
      s.sent ++ ((checkAndSend timeouts ⟨.reachable, t, view⟩ s.queue).1).toList := rfl
  rcases (hinv d hd).2 with hfresh | ⟨b, hb, hbt⟩
  · have hdue : dueNow timeouts t d = true := dueNow_of_fresh timeouts t d hfresh
    have hmem : d ∈ (sortByCid s.queue).filter (dueNow timeouts t) := by
      rw [List.mem_filter]
      refine ⟨?_, hdue⟩
      exact (List.mem_insertionSort cidLE).mpr hd
    have htmem : d.text ∈ ((sortByCid s.queue).filter (dueNow timeouts t)).map
        fun x => x.text :=
      List.mem_map_of_mem _ hmem
    have htne : (((sortByCid s.queue).filter (dueNow timeouts t)).map
        fun x => x.text) ≠ [] := by
      intro hnil
      rw [hnil] at htmem
      exact absurd htmem (List.not_mem_nil _)
    have hbatch : (checkAndSend timeouts ⟨.reachable, t, view⟩ s.queue).1 =
        some (((sortByCid s.queue).filter (dueNow timeouts t)).map fun x => x.text) := by
      rw [checkAndSend_reachable_eq]
      simp [htne]
    refine ⟨_, ?_, htmem⟩
    rw [hstep, hbatch]
    simp
  · exact ⟨b, by rw [hstep]; exact List.mem_append_left _ hb, hbt⟩

theorem queueInv_initial : QueueInv initialRunState := by
  intro d hd
  exact absurd hd (List.not_mem_nil d)

theorem queueInv_step (timeouts : Nat → Time) (s : RunState) (e : Event)
    (hinv : QueueInv s) : QueueInv (stepEvent timeouts s e) := by
  cases e with
  | enq qid msg =>
    intro d hd
    have hq : d ∈ enqueue s.queue qid msg := hd
    unfold enqueue at hq
    by_cases hdup : alreadyQueued s.queue qid msg
    · rw [if_pos hdup] at hq
      exact hinv d hq
    · rw [if_neg hdup] at hq
      rcases List.mem_append.mp hq with hold | hnew
      · exact hinv d hold
      · rcases List.mem_singleton.mp hnew with rfl
        exact ⟨rfl, Or.inl rfl⟩
  | cycle st t view =>
    by_cases hst : st = .reachable
    · subst hst
      intro d' hd'
      have hq' : d' ∈ (checkAndSend timeouts ⟨.reachable, t, view⟩ s.queue).2 := hd'
      rw [checkAndSend_reachable_eq] at hq'
      simp only at hq'
      have hmap : d' ∈ s.queue.map (advanceGen timeouts t) := List.mem_of_mem_filter hq'
      rcases List.mem_map.mp hmap with ⟨d, hd, rfl⟩
      have htext : (advanceGen timeouts t d).text = d.text := rfl
      refine ⟨by rw [htext]; exact (hinv d hd).1, Or.inr ?_⟩
      rw [htext]
      exact cycle_sends_pending timeouts s t view hinv d hd
    · have hidle : isIdleCycle (.cycle st t view) = true := by
        cases st <;> simp_all [isIdleCycle]
      rw [stepEvent_idle timeouts s _ hidle]
      exact hinv

theorem queueInv_runFrom (timeouts : Nat → Time) :
    ∀ (events : List Event) (s : RunState), QueueInv s →
      QueueInv (runFrom timeouts s events) := by
  intro events
  induction events with
  | nil => intro s h; exact h
  | cons e es ih =>
    intro s h
    exact ih (stepEvent timeouts s e) (queueInv_step timeouts s e h)

/-- C1: in every run of a `_RetryQueue`, a pending message that disappears
from the pending set during a cycle in which the recipient is `REACHABLE`
has had its serialized text included in some submitted send (that cycle's or
an earlier one); in particular one-shot messages (`Delivered`, `Ping`,
`Pong`) are never pruned without having been handed to `_send_raw`. -/
theorem retryQueue_message_sent_before_prune (timeouts : Nat → Time)
    (events : List Event) (st : AddressReachability) (t : Time)
    (view : QueueIdentifier → Option (List Nat)) (qid : QueueIdentifier) (msg : Message)
    (hpend : (qid, msg) ∈ pendingPairs (runEvents timeouts events).queue)
    (hst : st = .reachable)
    (hpruned : (qid, msg) ∉ pendingPairs
        (stepEvent timeouts (runEvents timeouts events) (.cycle st t view)).queue) :
    ∃ b ∈ (stepEvent timeouts (runEvents timeouts events) (.cycle st t view)).sent,
      serializeMessage msg ∈ b := by
  subst hst
  have hinv : QueueInv (runEvents timeouts events) :=
    queueInv_runFrom timeouts events initialRunState queueInv_initial
  rcases List.mem_map.mp hpend with ⟨d, hd, hpair⟩
  have hmsg : d.message = msg := congrArg Prod.snd hpair
  have htext : d.text = serializeMessage msg := by
    rw [(hinv d hd).1, hmsg]
  rcases cycle_sends_pending timeouts (runEvents timeouts events) t view hinv d hd with
    ⟨b, hb, hbt⟩
  exact ⟨b, hb, htext ▸ hbt⟩

/-- Witness for C1: a one-shot `Delivered` message is pruned on the first
reachable cycle (its Raiden queue view is irrelevant for one-shots), and its
serialized text is part of the submitted batch. -/
theorem retryQueue_message_sent_before_prune_witness :
    ((⟨[3], 0⟩, Message.delivered 5) ∈ pendingPairs
        (runEvents (fun _ => 1) [.enq ⟨[3], 0⟩ (.delivered 5)]).queue) ∧
      (AddressReachability.reachable = .reachable) ∧
      ((⟨[3], 0⟩, Message.delivered 5) ∉ pendingPairs
        (stepEvent (fun _ => 1) (runEvents (fun _ => 1) [.enq ⟨[3], 0⟩ (.delivered 5)])
          (.cycle .reachable 0 (fun _ => none))).queue) ∧
      ∃ b ∈ (stepEvent (fun _ => 1) (runEvents (fun _ => 1) [.enq ⟨[3], 0⟩ (.delivered 5)])
          (.cycle .reachable 0 (fun _ => none))).sent,
        serializeMessage (.delivered 5) ∈ b :=
  ⟨by decide, rfl, by decide,
    retryQueue_message_sent_before_prune (fun _ => 1) [.enq ⟨[3], 0⟩ (.delivered 5)]
      .reachable 0 (fun _ => none) ⟨[3], 0⟩ (.delivered 5) (by decide) rfl (by decide)⟩

/-! ## C9: `send_async` validation and routing -/

theorem alistLookup_append_self {α β : Type} [DecidableEq α] (l : List (α × β)) (a : α)
    (v : β) (h : alistLookup l a = none) : alistLookup (l ++ [(a, v)]) a = some v := by
  induction l with
  | nil => simp [alistLookup]
  | cons p rest ih =>
    rcases p with ⟨k, w⟩
    by_cases hk : k = a
    · rw [alistLookup, if_pos hk] at h
      exact absurd h (by simp)
    · rw [List.cons_append, alistLookup, if_neg hk]
      rw [alistLookup, if_neg hk] at h
      exact ih h

theorem alistLookup_enqueue_map (l : List (Address × Retrier)) (qid : QueueIdentifier)
    (msg : Message) :
    alistLookup (l.map fun p =>
        if p.1 = qid.recipient then (p.1, (⟨enqueue p.2.queue qid msg, p.2.started⟩ : Retrier))
        else p) qid.recipient =
      (alistLookup l qid.recipient).map fun r =>
        (⟨enqueue r.queue qid msg, r.started⟩ : Retrier) := by
  induction l with
  | nil => rfl
  | cons p rest ih =>
    rcases p with ⟨k, w⟩
    by_cases hk : k = qid.recipient
    · subst hk
      rw [List.map_cons]
      dsimp only
      rw [if_pos rfl]
      simp [alistLookup]
    · rw [List.map_cons]
      dsimp only
      rw [if_neg hk]
      simp [alistLookup, hk, ih]

/-- C9: `send_async` raises `ValueError` exactly when the recipient is not a
valid 20-byte binary address or the message is a transport-internal kind
(`Delivered`, `Ping`, `Pong`); in the error case the transport state is
untouched (no retry queue created, nothing enqueued); otherwise the message
pair is pending on the recipient's retry queue afterwards, and when no queue
existed a fresh, started one holding exactly this message was created. -/
theorem sendAsync_spec (s : TransportState) (qid : QueueIdentifier) (msg : Message) :
    ((sendAsync s qid msg).1 ≠ none ↔
        isBinaryAddress qid.recipient = false ∨ msg.isOneShot = true) ∧
      ((sendAsync s qid msg).1 ≠ none → (sendAsync s qid msg).2 = s) ∧
      ((sendAsync s qid msg).1 = none →
        ∃ r, alistLookup (sendAsync s qid msg).2.addressToRetrier qid.recipient = some r ∧
          (qid, msg) ∈ pendingPairs r.queue ∧
          (alistLookup s.addressToRetrier qid.recipient = none →
            r.started = true ∧ r.queue = enqueue [] qid msg)) := by
  by_cases ha : isBinaryAddress qid.recipient
  · by_cases hm : msg.isOneShot
    · have h : sendAsync s qid msg = (some .invalidMessageType, s) := by
        simp [sendAsync, ha, hm]
      refine ⟨?_, ?_, ?_⟩ <;> simp [h, ha, hm]
    · have h : sendAsync s qid msg = (none, sendWithRetry s qid msg) := by
        simp [sendAsync, ha, hm]
      refine ⟨by simp [h, ha, hm], by simp [h], ?_⟩
      intro _
      rw [h]
      have hsw : (sendWithRetry s qid msg).addressToRetrier =
          (getRetrier s qid.recipient).addressToRetrier.map fun p =>
            if p.1 = qid.recipient then
              (p.1, (⟨enqueue p.2.queue qid msg, p.2.started⟩ : Retrier))
            else p := rfl
      cases hl : alistLookup s.addressToRetrier qid.recipient with
      | none =>
        have hg : getRetrier s qid.recipient =
            ⟨s.addressToRetrier ++ [(qid.recipient, ⟨[], true⟩)]⟩ := by
          unfold getRetrier
          rw [hl]
        have hlg : alistLookup (getRetrier s qid.recipient).addressToRetrier
            qid.recipient = some ⟨[], true⟩ := by
          rw [hg]
          exact alistLookup_append_self s.addressToRetrier qid.recipient ⟨[], true⟩ hl
        refine ⟨⟨enqueue [] qid msg, true⟩, ?_, enqueue_pair_mem [] qid msg, fun _ => ⟨rfl, rfl⟩⟩
        rw [hsw, alistLookup_enqueue_map, hlg]
        rfl
      | some r0 =>
        have hg : getRetrier s qid.recipient = s := by
          unfold getRetrier
          rw [hl]
        refine ⟨⟨enqueue r0.queue qid msg, r0.started⟩, ?_,
          enqueue_pair_mem r0.queue qid msg, fun hno => ?_⟩
        · rw [hsw, alistLookup_enqueue_map, hg, hl]
          rfl
        · exact absurd hno (by simp)
  · have h : sendAsync s qid msg = (some .invalidAddress, s) := by
      simp [sendAsync, ha]
    refine ⟨?_, ?_, ?_⟩ <;> simp [h, ha]

/-- Witness for C9: sending a retrieable message to a fresh 20-byte address
creates a started queue holding the message. -/
theorem sendAsync_spec_witness :
    ((sendAsync ⟨[]⟩ ⟨List.replicate 20 0, 1⟩ (.retrieable 4)).1 = none) ∧
      ∃ r, alistLookup
            (sendAsync ⟨[]⟩ ⟨List.replicate 20 0, 1⟩ (.retrieable 4)).2.addressToRetrier
            (QueueIdentifier.recipient ⟨List.replicate 20 0, 1⟩) = some r ∧
          ((⟨List.replicate 20 0, 1⟩ : QueueIdentifier), Message.retrieable 4) ∈
            pendingPairs r.queue ∧
          (alistLookup (TransportState.addressToRetrier ⟨[]⟩)
              (QueueIdentifier.recipient ⟨List.replicate 20 0, 1⟩) = none →
            r.started = true ∧ r.queue = enqueue [] ⟨List.replicate 20 0, 1⟩ (.retrieable 4)) :=
  ⟨by decide,
    (sendAsync_spec ⟨[]⟩ ⟨List.replicate 20 0, 1⟩ (.retrieable 4)).2.2 (by decide)⟩

/-! ## C10: the persisted room mapping -/

theorem alistLookup_adInsert (m : List (AddressHex × List RoomID)) (a : AddressHex)
    (v : List RoomID) : alistLookup (adInsert m a v) a = some v := by
  simp [adInsert, alistLookup]

theorem alistLookup_adErase (m : List (AddressHex × List RoomID)) (a : AddressHex) :
    alistLookup (adErase m a) a = none := by
  induction m with
  | nil => rfl
  | cons p rest ih =>
    rcases p with ⟨k, w⟩
    by_cases hk : k = a
    · subst hk
      have hstep : adErase ((k, w) :: rest) k = adErase rest k := by simp [adErase]
      rw [hstep]
      exact ih
    · have hstep : adErase ((k, w) :: rest) a = (k, w) :: adErase rest a := by
        simp [adErase, hk]
      rw [hstep]
      show (if k = a then some w else alistLookup (adErase rest a) a) = none
      rw [if_neg hk]
      exact ih

theorem count_front_filtered (rid : RoomID) (l : List RoomID) :
    (rid :: l.filter fun r => r ≠ rid).count rid = 1 := by
  have h0 : (l.filter fun r => r ≠ rid).count rid = 0 := by
    rw [List.count_eq_zero]
    intro hmem
    have h1 := List.of_mem_filter hmem
    simp at h1
  rw [List.count_cons, h0]
  simp

/-- C10: `_set_room_id_for_address` with a known room id leaves that id as
the unique first element of the persisted list for the address — the new
list is the id followed by the (existing-room-filtered) previous list with
every occurrence of the id removed, so relative order of the other ids is
preserved; a falsy room id removes the address's entry entirely. -/
theorem setRoomIdForAddress_spec (c : ClientState) (cfg : Bool) (addr : AddressHex)
    (rid : RoomID) (hknown : (alistLookup c.rooms rid).isSome = true) :
    (alistLookup (setRoomIdForAddress c cfg addr (some rid)).accountData addr =
        some (rid :: (getRoomIdsForAddress c cfg addr (some false)).filter fun r => r ≠ rid)) ∧
      (rid :: (getRoomIdsForAddress c cfg addr (some false)).filter
          fun r => r ≠ rid).count rid = 1 ∧
      (rid :: (getRoomIdsForAddress c cfg addr (some false)).filter
          fun r => r ≠ rid).head? = some rid ∧
      alistLookup (setRoomIdForAddress c cfg addr none).accountData addr = none := by
  refine ⟨?_, count_front_filtered rid _, rfl, ?_⟩
  · unfold setRoomIdForAddress
    by_cases heq : alistLookup c.accountData addr =
        some (rid :: (getRoomIdsForAddress c cfg addr (some false)).filter fun r => r ≠ rid)
    · simpa [heq] using heq
    · simp only [heq, if_neg heq]
      exact alistLookup_adInsert c.accountData addr _
  · unfold setRoomIdForAddress
    by_cases hpres : (alistLookup c.accountData addr).isSome
    · simp only [hpres, if_pos]
      exact alistLookup_adErase c.accountData addr
    · simp only [hpres]
      rw [if_neg (by simpa using hpres)]
      rwa [Option.not_isSome_iff_eq_none] at hpres

/-- Witness for C10 at a concrete client state with one known room and a
stale persisted list. -/
theorem setRoomIdForAddress_spec_witness :
    ((alistLookup (ClientState.rooms ⟨[(colonStr, false)], [(hashStr, [colonStr])]⟩)
        colonStr).isSome = true) ∧
      ((alistLookup (setRoomIdForAddress ⟨[(colonStr, false)], [(hashStr, [colonStr])]⟩
            true hashStr (some colonStr)).accountData hashStr =
        some (colonStr :: (getRoomIdsForAddress ⟨[(colonStr, false)], [(hashStr, [colonStr])]⟩
            true hashStr (some false)).filter fun r => r ≠ colonStr)) ∧
      (colonStr :: (getRoomIdsForAddress ⟨[(colonStr, false)], [(hashStr, [colonStr])]⟩
          true hashStr (some false)).filter fun r => r ≠ colonStr).count colonStr = 1 ∧
      (colonStr :: (getRoomIdsForAddress ⟨[(colonStr, false)], [(hashStr, [colonStr])]⟩
          true hashStr (some false)).filter fun r => r ≠ colonStr).head? = some colonStr ∧
      alistLookup (setRoomIdForAddress ⟨[(colonStr, false)], [(hashStr, [colonStr])]⟩
          true hashStr none).accountData hashStr = none) :=
  ⟨by decide,
    setRoomIdForAddress_spec ⟨[(colonStr, false)], [(hashStr, [colonStr])]⟩
      true hashStr colonStr (by decide)⟩

/-! ## C6: `_handle_invite` on a malformed invite state

The source computes `invite_event = invite_events[0]` **before** the
`if not invite_events: return` guard, so an invite whose state carries no
invite-membership event for this node's user id raises `IndexError` instead
of returning: the guard is dead code and the handler does not degrade
gracefully on this malformed input. -/

/-- C6 (failing input): after startup (`stopped = starting = false`), an
invite with an empty event list makes `_handle_invite` raise `IndexError`
from `invite_events[0]` instead of returning without raising. -/
theorem handleInvite_empty_state_index_error :
    handleInvite false false hashStr (fun _ => none) (fun _ => false)
        (fun _ => .error 500) colonStr [] = .error .indexError := by
  rfl

/-! ## C7: messages arriving in a global room -/

/-- C7 (counterexample): a signature-valid, whitelisted sender's text message
arriving in a *global* room does **not** always raise `RuntimeError`: with
`private_rooms` enabled and a public global room that is not in the sender's
persisted room list, the private-room policy check soft-drops the message
first, so no fatal error is raised.  This refutes the claim's "for every
privacy configuration and every persisted room list". -/
theorem handleMessage_global_softdrop_cex :
    isRoomGlobal [membershipJoin] [membershipJoin] = true ∧
      handleMessage false hashStr (fun s => if s = colonStr then some [1] else none)
          (fun _ => true) true [membershipJoin] (fun _ => [])
          ⟨newlineStr, false, [membershipJoin]⟩ ⟨mRoomMessage, mTextType, colonStr, hashStr⟩ =
        .ok .ignoredInvalidRoom :=
  ⟨by decide, by rfl⟩

/-- C7 (amended): for an accepted text message from a signature-valid,
whitelisted sender, `_handle_message` raises the fatal `RuntimeError` exactly
when the private-room policy does not soft-drop the message first, the room
is not the front entry of the sender's persisted room list, and the room is
classified as global. -/
theorem handleMessage_global_fatal_iff (ownUserId : String)
    (validateSig : String → Option Address) (isKnown : Address → Bool)
    (privateRooms : Bool) (globalSuffixes : List String)
    (roomIdsFor : Address → List String) (room : RoomInfo) (event : MsgEvent)
    (peer : Address)
    (htype : event.type = mRoomMessage) (hmsg : event.msgtype = mTextType)
    (hself : event.sender ≠ ownUserId)
    (hsig : validateSig event.sender = some peer) (hknown : isKnown peer = true) :
    handleMessage false ownUserId validateSig isKnown privateRooms globalSuffixes
        roomIdsFor room event = .error .globalRoomViolation ↔
      softDropCond (roomIdsFor peer) room.roomId privateRooms room.inviteOnly = false ∧
        notFrontRoom (roomIdsFor peer) room.roomId = true ∧
        isRoomGlobal globalSuffixes room.aliases = true := by
  unfold handleMessage
  rw [if_neg (by simp [htype, hmsg]), if_neg hself, hsig]
  simp only [hknown, Bool.not_true, Bool.false_eq_true, if_false]
  by_cases h1 : softDropCond (roomIdsFor peer) room.roomId privateRooms room.inviteOnly
  · simp [h1]
  · by_cases h2 : notFrontRoom (roomIdsFor peer) room.roomId
    · by_cases h3 : isRoomGlobal globalSuffixes room.aliases
      · simp [h1, h2, h3]
      · simp [h1, h2, h3]
    · simp [h1, h2]

/-- Witness for the amended C7: with privacy off and an empty persisted list,
a global-room message from a valid, whitelisted sender is fatal. -/
theorem handleMessage_global_fatal_iff_witness :
    ((⟨mRoomMessage, mTextType, colonStr, hashStr⟩ : MsgEvent).type = mRoomMessage ∧
        (⟨mRoomMessage, mTextType, colonStr, hashStr⟩ : MsgEvent).msgtype = mTextType ∧
        (⟨mRoomMessage, mTextType, colonStr, hashStr⟩ : MsgEvent).sender ≠ hashStr ∧
        (fun s => if s = colonStr then some ([1] : Address) else none)
            (MsgEvent.sender ⟨mRoomMessage, mTextType, colonStr, hashStr⟩) = some [1] ∧
        (fun _ : Address => true) ([1] : Address) = true) ∧
      handleMessage false hashStr (fun s => if s = colonStr then some [1] else none)
          (fun _ => true) false [membershipJoin] (fun _ => [])
          ⟨newlineStr, false, [membershipJoin]⟩ ⟨mRoomMessage, mTextType, colonStr, hashStr⟩ =
        .error .globalRoomViolation :=
  ⟨⟨rfl, rfl, by decide, by decide, rfl⟩,
    (handleMessage_global_fatal_iff hashStr (fun s => if s = colonStr then some [1] else none)
      (fun _ => true) false [membershipJoin] (fun _ => [])
      ⟨newlineStr, false, [membershipJoin]⟩ ⟨mRoomMessage, mTextType, colonStr, hashStr⟩
      [1] rfl rfl (by decide) (by decide) rfl).mpr ⟨by decide, by decide, by decide⟩⟩

/-! ## C8: `join_global_room` -/

theorem mem_aliasRoom (ownAlias : String) (room : MRoom) :
    ownAlias ∈ (aliasRoom ownAlias room).aliases := by
  unfold aliasRoom
  by_cases h : ownAlias ∈ room.aliases
  · rw [if_pos h]
    exact h
  · rw [if_neg h]
    simp

theorem joinLoopTrace_take (join : String → Except Nat MRoom) (name : String) :
    ∀ servers : List String, ∃ k,
      joinLoopTrace join name servers = (servers.take k).map (roomAliasFull name) := by
  intro servers
  induction servers with
  | nil => exact ⟨0, rfl⟩
  | cons s rest ih =>
    cases hj : join (roomAliasFull name s) with
    | ok room => exact ⟨1, by simp [joinLoopTrace, hj]⟩
    | error c =>
      by_cases hc : softJoinCode c = true
      · rcases ih with ⟨k, hk⟩
        exact ⟨k + 1, by simp [joinLoopTrace, hj, hc, hk]⟩
      · exact ⟨1, by simp [joinLoopTrace, hj, hc]⟩

theorem joinLoopRes_append_soft (join : String → Except Nat MRoom) (name ownAlias : String)
    (pre : List String)
    (hpre : ∀ u ∈ pre, ∃ cu, join (roomAliasFull name u) = .error cu ∧
      softJoinCode cu = true) :
    ∀ rest, joinLoopRes join name ownAlias (pre ++ rest) =
      joinLoopRes join name ownAlias rest := by
  induction pre with
  | nil => intro rest; rfl
  | cons u us ih =>
    intro rest
    rcases hpre u (List.mem_cons_self u us) with ⟨cu, hj, hsoft⟩
    have hus : ∀ v ∈ us, ∃ cv, join (roomAliasFull name v) = .error cv ∧
        softJoinCode cv = true := fun v hv => hpre v (List.mem_cons_of_mem u hv)
    rw [List.cons_append]
    show joinLoopRes join name ownAlias (u :: (us ++ rest)) = _
    simp only [joinLoopRes, hj, hsoft, if_true]
    exact ih hus rest

theorem joinLoopRes_all_soft (join : String → Except Nat MRoom) (name ownAlias : String)
    (servers : List String)
    (h : ∀ u ∈ servers, ∃ cu, join (roomAliasFull name u) = .error cu ∧
      softJoinCode cu = true) :
    joinLoopRes join name ownAlias servers = none := by
  have happ := joinLoopRes_append_soft join name ownAlias servers h []
  rwa [List.append_nil] at happ

theorem createLoop_exhaust (create joinOwn : Nat → Except Nat MRoom) :
    ∀ (fuel start : Nat),
      (∀ i, start ≤ i → i < start + fuel →
        (∃ c, create i = .error c ∧ softCreateCode c = true) ∧
        (∃ d, joinOwn i = .error d ∧ softOwnJoinCode d = true)) →
      createLoop create joinOwn start fuel = .error .transportError := by
  intro fuel
  induction fuel with
  | zero => intro start _; rfl
  | succ f ih =>
    intro start h
    rcases h start (Nat.le_refl start) (by omega) with ⟨⟨c, hc, hcs⟩, ⟨d, hd, hds⟩⟩
    simp only [createLoop, hc, hcs, if_true, hd, hds]
    exact ih (start + 1) fun i h1 h2 => h i (by omega) (by omega)

/-- C8: `join_global_room` tries the canonical alias on the node's own server
first, then each configured fallback server in order (the attempted aliases
are an initial segment of the deduplicated own-first server list); the first
join failure with a code other than 403/404/500 propagates; a join success
yields a room carrying the own-server alias; if every server soft-fails, a
successful create returns that public room, and exhausting the bounded
retries (create soft-failing with 400/409 and the own-alias join with
403/404 each time) raises the fatal `TransportError`. -/
theorem joinGlobalRoom_spec (join : String → Except Nat MRoom)
    (create joinOwn : Nat → Except Nat MRoom) (name own : String)
    (fallbacks : List String) :
    (dedupKeepFirst (own :: fallbacks)).head? = some own ∧
      (∃ k, joinGlobalRoomAttempts join name own fallbacks =
        ((dedupKeepFirst (own :: fallbacks)).take k).map (roomAliasFull name)) ∧
      (∀ pre s post c, dedupKeepFirst (own :: fallbacks) = pre ++ s :: post →
        (∀ u ∈ pre, ∃ cu, join (roomAliasFull name u) = .error cu ∧
          softJoinCode cu = true) →
        join (roomAliasFull name s) = .error c → softJoinCode c = false →
        joinGlobalRoom join create joinOwn name own fallbacks =
          .error (.matrixError c)) ∧
      (∀ pre s post room, dedupKeepFirst (own :: fallbacks) = pre ++ s :: post →
        (∀ u ∈ pre, ∃ cu, join (roomAliasFull name u) = .error cu ∧
          softJoinCode cu = true) →
        join (roomAliasFull name s) = .ok room →
        ∃ room2, joinGlobalRoom join create joinOwn name own fallbacks = .ok room2 ∧
          roomAliasFull name own ∈ room2.aliases) ∧
      ((∀ u ∈ dedupKeepFirst (own :: fallbacks), ∃ cu,
          join (roomAliasFull name u) = .error cu ∧ softJoinCode cu = true) →
        (∀ room, create 0 = .ok room →
          joinGlobalRoom join create joinOwn name own fallbacks = .ok room) ∧
        ((∀ i, i < joinRetries →
            (∃ c, create i = .error c ∧ softCreateCode c = true) ∧
            (∃ d, joinOwn i = .error d ∧ softOwnJoinCode d = true)) →
          joinGlobalRoom join create joinOwn name own fallbacks =
            .error .transportError)) := by
  have hhead : (dedupKeepFirst (own :: fallbacks)).head? = some own := by
    rw [dedupKeepFirst]
    rfl
  refine ⟨hhead, ?_, ?_, ?_, ?_⟩
  · exact joinLoopTrace_take join name (dedupKeepFirst (own :: fallbacks))
  · intro pre s post c hdecomp hpre hj hhard
    unfold joinGlobalRoom
    dsimp only
    rw [hdecomp, joinLoopRes_append_soft join name _ pre hpre (s :: post)]
    simp only [joinLoopRes, hj, hhard, Bool.false_eq_true, if_false]
  · intro pre s post room hdecomp hpre hj
    refine ⟨aliasRoom (roomAliasFull name own) room, ?_,
      mem_aliasRoom (roomAliasFull name own) room⟩
    unfold joinGlobalRoom
    dsimp only
    rw [hdecomp, joinLoopRes_append_soft join name _ pre hpre (s :: post)]
    simp only [joinLoopRes, hj]
  · intro hall
    have hnone := joinLoopRes_all_soft join name (roomAliasFull name own)
      (dedupKeepFirst (own :: fallbacks)) hall
    constructor
    · intro room hcreate
      unfold joinGlobalRoom
      dsimp only
      rw [hnone]
      show createLoop create joinOwn 0 joinRetries = .ok room
      simp only [joinRetries, createLoop, hcreate]
    · intro hexh
      unfold joinGlobalRoom
      dsimp only
      rw [hnone]
      exact createLoop_exhaust create joinOwn joinRetries 0
        fun i h1 h2 => hexh i (by omega)

/-- Witness for C8: a hard 401 on the own server propagates as a
`MatrixRequestError`. -/
theorem joinGlobalRoom_spec_witness :
    (dedupKeepFirst (hashStr :: []) = [] ++ hashStr :: []) ∧
      softJoinCode 401 = false ∧
      joinGlobalRoom (fun _ => .error 401) (fun _ => .error 400) (fun _ => .error 404)
          colonStr hashStr [] = .error (.matrixError 401) :=
  ⟨by simp [dedupKeepFirst], by decide,
    (joinGlobalRoom_spec (fun _ => .error 401) (fun _ => .error 400) (fun _ => .error 404)
        colonStr hashStr []).2.2.1 [] hashStr [] 401 (by simp [dedupKeepFirst])
      (fun u hu => absurd hu (List.not_mem_nil u)) rfl (by decide)⟩

end RaidenMatrix
